import Mathlib

/-!
Verification development for the GBXRemote RPC client in `src/main.rs`.

The Rust client is shallowly embedded:

* the TCP byte stream is a `List Nat` of bytes, read from the front;
* the pending-call table `HashMap<u32, Option<String>>` (`Client.msgs`) is
  an association list with unique keys; payload strings are kept as their
  UTF-8 byte lists (the `String::from_utf8` step of `read_msg` is folded
  into the codec boundary);
* the `dxr` codec crate is an external collaborator and is a parameter
  (`Codec`) of the embedding;
* the blocking read loops of `await_messages` and `call` are given explicit
  fuel.  Every loop iteration consumes at least one byte of input, so
  `input.length + 1` units of fuel never run out before the input does;
  running out of input models the `unwrap` panic on a short read
  (`none` = panic / fatal transport error);
* `handle_callback`'s external effects (HTTP fetch, nested calls) are
  recorded as events (`Ev.cb`) rather than executed; the branch decision
  itself is modelled in `handle_callback` below.
-/

namespace TrackmaniaController

/-- A byte stream: one `Nat` per byte of the TCP stream. -/
abbrev Bytes := List Nat

/-- `Client.msgs : HashMap<u32, Option<String>>` (line 16), embedded as an
association list whose keys are unique. -/
abbrev Table := List (Nat × Option Bytes)

namespace Table

/-- Lookup of the value stored for key `k`. -/
def findVal : Table → Nat → Option (Option Bytes)
  | [], _ => none
  | e :: t, k => if e.1 = k then some e.2 else findVal t k

/-- The table left behind by `HashMap::remove(&k)`. -/
def removeKey : Table → Nat → Table
  | [], _ => []
  | e :: t, k => if e.1 = k then removeKey t k else e :: removeKey t k

/-- `HashMap::remove(&k)`: returns the removed value (if any) and the
mutated table. -/
def remove (t : Table) (k : Nat) : Option (Option Bytes) × Table :=
  (t.findVal k, t.removeKey k)

/-- `HashMap::insert(k, v)`: replace-or-add. -/
def insert (t : Table) (k : Nat) (v : Option Bytes) : Table :=
  (k, v) :: t.removeKey k

/-- The keys of the table. -/
def keys (t : Table) : List Nat := t.map (·.1)

end Table

/-- Observable actions of the client, for stating ordering properties:
bytes written to the transport (`wr`), a pending-table registration
(`reg`, `msgs.insert(handle, None)`), a stored response (`store`,
`msgs.insert(handle, Some(msg))`), a table removal in the call loop
(`rm`), and a callback-handler invocation (`cb`). -/
inductive Ev where
  | wr (b : Bytes)
  | reg (h : Nat)
  | store (h : Nat) (p : Bytes)
  | rm (h : Nat)
  | cb (h : Nat) (p : Bytes)
deriving DecidableEq

/-- `Client::read_u32` (lines 48-52): read 4 bytes, little-endian. -/
def read_u32 : Bytes → Option (Nat × Bytes)
  | a :: b :: c :: d :: rest => some (a + 256 * b + 65536 * c + 16777216 * d, rest)
  | _ => none

/-- `Client::write_u32` (lines 54-56): the little-endian bytes of
`val as u32` (hence the truncation to 32 bits byte by byte). -/
def write_u32 (val : Nat) : Bytes :=
  [val % 256, val / 256 % 256, val / 65536 % 256, val / 16777216 % 256]

/-- `Client::read_msg` (lines 66-70): read exactly `len` bytes; a short
read is the fatal `read_exact` failure. -/
def read_msg (len : Nat) (s : Bytes) : Option (Bytes × Bytes) :=
  if len ≤ s.length then some (s.take len, s.drop len) else none

/-- The three reads at the top of each `await_messages` iteration
(lines 103-105): length, correlation id, then `len` payload bytes. -/
def read_frame (s : Bytes) : Option (Nat × Bytes × Bytes) :=
  match read_u32 s with
  | none => none
  | some (len, s1) =>
    match read_u32 s1 with
    | none => none
    | some (handle, s2) =>
      match read_msg len s2 with
      | none => none
      | some (payload, rest) => some (handle, payload, rest)

/-- The bytes of one frame as written by the peer (and, byte for byte, as
`call` writes its outbound frame): length prefix, correlation id,
payload. -/
def mkFrame (handle : Nat) (payload : Bytes) : Bytes :=
  write_u32 payload.length ++ write_u32 handle ++ payload

/-- `Client::new_handle` (lines 58-64).  `self.handle += 1` is `u32`
arithmetic, hence the reduction mod `2^32`; the counter is reset to
`0x8000_0000` when the incremented value reaches `0xffff_ff00`. -/
def new_handle (h : Nat) : Nat :=
  let h1 := (h + 1) % 4294967296
  if 0xffffff00 ≤ h1 then 0x80000000 else h1

/-- The counter after `k` calls to `new_handle`, starting from the initial
value `0x8000_0000` set in `Client::new` (line 28).  Since `new_handle`
returns the updated counter, `iterHandle k` is also the value returned by
the `k`-th call. -/
def iterHandle : Nat → Nat
  | 0 => 0x80000000
  | k + 1 => new_handle (iterHandle k)

/-- Lines 107-111 of `await_messages`:
`if self.msgs.remove(&handle).is_some() { self.msgs.insert(handle, Some(msg)); return; }`.
The test is key *presence* (`is_some` on the removed entry), and on success
the payload is inserted for that key.  When the key is absent,
`HashMap::remove` leaves the map unchanged. -/
def deliver (msgs : Table) (handle : Nat) (payload : Bytes) : Bool × Table :=
  if (msgs.findVal handle).isSome then
    (true, (msgs.removeKey handle).insert handle (some payload))
  else
    (false, msgs)

/-- Line 84 of `call`: registering the pending call is a plain
`self.msgs.insert(handle, None)`.  The function is total: no error path
exists in the source. -/
def register (msgs : Table) (handle : Nat) : Table :=
  msgs.insert handle none

/-- Lines 87-89 of `call`: `self.msgs.remove(&handle).unwrap()` followed by
the `if let Some(msg) = … { break msg }` test.  `none` models the `unwrap`
panic when the key is absent. -/
def checkResolved (msgs : Table) (handle : Nat) : Option (Option Bytes × Table) :=
  match msgs.remove handle with
  | (none, _) => none
  | (some v, t) => some (v, t)

/-- `Client::await_messages` (lines 101-115), fuelled.  Each iteration
reads one frame; a frame whose id is a key of the table is stored
(`Ev.store`) and the loop returns; otherwise the payload goes to
`handle_callback` (recorded as `Ev.cb`) and the loop reads the next frame.
Returns the updated table, the unread remainder of the stream, and the
events in order. -/
def await_messagesF : Nat → Table → Bytes → Option (Table × Bytes × List Ev)
  | 0, _, _ => none
  | fuel + 1, msgs, input =>
    match read_frame input with
    | none => none
    | some (handle, payload, rest) =>
      match deliver msgs handle payload with
      | (true, t) => some (t, rest, [Ev.store handle payload])
      | (false, t) =>
        match await_messagesF fuel t rest with
        | none => none
        | some (t', rest', evs) => some (t', rest', Ev.cb handle payload :: evs)

/-- `Client::await_messages` with always-sufficient fuel (each iteration
consumes at least 8 bytes of `input`). -/
def await_messages (msgs : Table) (input : Bytes) : Option (Table × Bytes × List Ev) :=
  await_messagesF (input.length + 1) msgs input

/-- XML-RPC values at the `dxr` codec boundary. -/
inductive Value where
  | str (s : String)
  | bool (b : Bool)
  | int (i : Int)
  | array (xs : List Value)

/-- `dxr::Fault`: a structured fault, code plus message. -/
structure Fault where
  faultCode : Int
  faultString : String
deriving DecidableEq

/-- The decoded shape of a `dxr::FaultResponse`. -/
structure FaultResponse where
  code : Int
  msg : String
deriving DecidableEq

/-- `dxr::MethodResponse`; `inner` is what `res.inner()` returns. -/
structure MethodResponse where
  inner : Value

/-- A decoded `dxr::MethodCall` (inbound notification). -/
structure MethodCallMsg where
  name : String
  params : List Value

/-- The external codec boundary (the `dxr` crate): serialization of an
outbound call and the three deserialization modes.  `none` models a failed
decode (the corresponding `Err`). -/
structure Codec where
  serializeCall : String → List Value → Bytes
  deserFaultResp : Bytes → Option FaultResponse
  faultOfResponse : FaultResponse → Option Fault
  deserMethodResp : Bytes → Option MethodResponse
  deserMethodCall : Bytes → Option MethodCallMsg

/-- `<bool as TryFromValue>::try_from_value` at the codec boundary. -/
def tryFromBool : Value → Option Bool
  | Value.bool b => some b
  | _ => none

/-- The client state that the claims are about: the handle counter and the
pending-call table (lines 12-17; the TCP stream and HTTP client are the
transport/effect boundary). -/
structure Client where
  handle : Nat
  msgs : Table

/-- Lines 92-97 of `call`: decode the resolved payload, fault response
first, then method response; `none` models the `unwrap` panics (a payload
that decodes as neither is a fatal decode error). -/
def decodeCallResult {R : Type} (codec : Codec) (tryFrom : Value → Option R)
    (msg : Bytes) : Option (Except Fault R) :=
  match codec.deserFaultResp msg with
  | some res => (codec.faultOfResponse res).map Except.error
  | none =>
    match codec.deserMethodResp msg with
    | some mr => (tryFrom mr.inner).map Except.ok
    | none => none

/-- The retry loop of `Client::call` (lines 83-90), fuelled: insert
`handle → None`, pump `await_messages`, remove the entry; `Some` payload
breaks the loop, `None` repeats.  Returns the table, the unread input, the
events in order, and the resolved payload bytes. -/
def callLoopF : Nat → Table → Nat → Bytes → Option (Table × Bytes × List Ev × Bytes)
  | 0, _, _, _ => none
  | fuel + 1, msgs, handle, input =>
    match await_messages (register msgs handle) input with
    | none => none
    | some (msgs1, rest, evs) =>
      match checkResolved msgs1 handle with
      | none => none
      | some (none, msgs2) =>
        match callLoopF fuel msgs2 handle rest with
        | none => none
        | some (t', rest', evs', raw) =>
          some (t', rest', (Ev.reg handle :: evs) ++ (Ev.rm handle :: evs'), raw)
      | some (some m, msgs2) =>
        some (msgs2, rest, (Ev.reg handle :: evs) ++ [Ev.rm handle], m)

/-- The `call` retry loop with always-sufficient fuel (each iteration pumps
`await_messages`, which consumes at least one byte of `input`). -/
def callLoop (msgs : Table) (handle : Nat) (input : Bytes) :
    Option (Table × Bytes × List Ev × Bytes) :=
  callLoopF (input.length + 1) msgs handle input

/-- `Client::call` (lines 72-98): serialize, write the frame (length, the
freshly allocated handle, payload), run the retry loop, then decode the
resolved payload.  `R` is the `TryFromValue` result type.  The result is
the updated client, the unread input, the event trace, the raw resolved
payload and the decoded `Result<R, Fault>`. -/
def call {R : Type} (codec : Codec) (tryFrom : Value → Option R) (c : Client)
    (f : String) (params : List Value) (input : Bytes) :
    Option (Client × Bytes × List Ev × Bytes × Except Fault R) :=
  let msg := codec.serializeCall f params
  let handle := new_handle c.handle
  match callLoop c.msgs handle input with
  | none => none
  | some (t, rest, evs, raw) =>
    match decodeCallResult codec tryFrom raw with
    | none => none
    | some res =>
      some (⟨handle, t⟩, rest,
        Ev.wr (write_u32 msg.length) :: Ev.wr (write_u32 handle) :: Ev.wr msg :: evs,
        raw, res)

/-- The protocol banner `"GBXRemote 2"` as UTF-8 bytes. -/
def bannerBytes : Bytes := [71, 66, 88, 82, 101, 109, 111, 116, 101, 32, 50]

/-- `Client::new` (lines 20-46): read the greeting (a raw length prefix
followed by that many bytes — no correlation id), assert it equals the
banner, then issue `SetApiVersion`, `Authenticate`, `EnableCallbacks` in
that order, each required (`assert!`) to return `true`.  `none` models any
panic (greeting mismatch, call failure, or a `false` result). -/
def Client.new (codec : Codec) (input : Bytes) : Option (Client × Bytes × List Ev) :=
  let c0 : Client := ⟨0x80000000, []⟩
  match read_u32 input with
  | none => none
  | some (len, s1) =>
    match read_msg len s1 with
    | none => none
    | some (hello, s2) =>
      if hello = bannerBytes then
        match call codec tryFromBool c0 "SetApiVersion" [Value.str "2023-04-24"] s2 with
        | some (c1, s3, e1, _, Except.ok true) =>
          match call codec tryFromBool c1 "Authenticate"
              [Value.str "SuperAdmin", Value.str "SuperAdmin"] s3 with
          | some (c2, s4, e2, _, Except.ok true) =>
            match call codec tryFromBool c2 "EnableCallbacks" [Value.bool true] s4 with
            | some (c3, s5, e3, _, Except.ok true) => some (c3, s5, e1 ++ e2 ++ e3)
            | _ => none
          | _ => none
        | _ => none
      else none

/-- The external workflow triggered by a recognized notification
(`random_map_id` + `download_map`), as an opaque action marker. -/
inductive CallbackAction where
  | downloadRandomMap
deriving DecidableEq

/-- `Client::handle_callback` (lines 117-127): decode the payload as a
`MethodCall` (`unwrap` panic = `none` on failure) and dispatch on the
method name only; the `_handle` parameter is bound but never used in the
source.  The triggered workflow is returned as an action marker. -/
def handle_callback (codec : Codec) (msg : Bytes) (_handle : Nat) :
    Option (Option CallbackAction) :=
  match codec.deserMethodCall msg with
  | none => none
  | some mc =>
    if mc.name = "ManiaPlanet.BeginMap" then some (some CallbackAction.downloadRandomMap)
    else some none

/-- The ordering property asserted by the spec for `call`: every
registration event precedes every transport write. -/
def registersBeforeWriting (evs : List Ev) : Prop :=
  ∀ (i j h : Nat) (b : Bytes), evs[i]? = some (Ev.reg h) → evs[j]? = some (Ev.wr b) → i < j

/-- The reserved correlation-id range `[0x8000_0000, 0xffff_ff00)`. -/
def inReservedRange (k : Nat) : Prop := 0x80000000 ≤ k ∧ k < 0xffffff00

/-- Abstract session state for the table invariant: the allocator counter,
the handles held by in-flight `call` activations (possibly nested via
`handle_callback`), and the pending table. -/
structure Session where
  counter : Nat
  held : List Nat
  msgs : Table

/-- Every mutation the client performs on the counter or the table is an
instance of one of these steps: allocating a handle (`new_handle`, line
79), registering a held handle (line 84), the delivery step of
`await_messages` (lines 107-111, with an id taken from the wire), and the
removal in the call loop (line 87).  Nested calls from notifications
interleave these steps arbitrarily, which this relation over-approximates. -/
inductive SessionStep : Session → Session → Prop where
  | alloc (s : Session) :
      SessionStep s ⟨new_handle s.counter, new_handle s.counter :: s.held, s.msgs⟩
  | registerStep (s : Session) (h : Nat) (hh : h ∈ s.held) :
      SessionStep s ⟨s.counter, s.held, register s.msgs h⟩
  | deliverStep (s : Session) (h : Nat) (p : Bytes) :
      SessionStep s ⟨s.counter, s.held, (deliver s.msgs h p).2⟩
  | resolveStep (s : Session) (h : Nat) :
      SessionStep s ⟨s.counter, s.held, Table.removeKey s.msgs h⟩

/-- Session states reachable from the state `Client::new` sets up
(counter `0x8000_0000`, empty table, line 28-29). -/
inductive Reachable : Session → Prop where
  | init : Reachable ⟨0x80000000, [], []⟩
  | step {s s' : Session} : Reachable s → SessionStep s s' → Reachable s'

/-- The inductive invariant behind C9: the counter stays inside
`[0x8000_0000, 0xffff_feff]`, every held handle and every table key lies
in the reserved range, and the table keys are duplicate-free. -/
def sessionInv (s : Session) : Prop :=
  0x80000000 ≤ s.counter ∧ s.counter ≤ 0xfffffeff ∧
  (∀ h ∈ s.held, inReservedRange h) ∧
  (∀ k ∈ s.msgs.keys, inReservedRange k) ∧ s.msgs.keys.Nodup

/-- A concrete codec used to exercise the theorems on closed inputs:
payload `[70]` decodes as a fault, `[84]`/`[78]` as the method responses
`true`/`false`, `[66]` as the `BeginMap` notification. -/
def demoCodec : Codec where
  serializeCall := fun _ _ => [60]
  deserFaultResp := fun b => if b = [70] then some ⟨42, "boom"⟩ else none
  faultOfResponse := fun fr => some ⟨fr.code, fr.msg⟩
  deserMethodResp := fun b =>
    if b = [84] then some ⟨Value.bool true⟩
    else if b = [78] then some ⟨Value.bool false⟩ else none
  deserMethodCall := fun b =>
    if b = [66] then some ⟨"ManiaPlanet.BeginMap", []⟩ else some ⟨"TrackMania.PlayerConnect", []⟩

/-! ### Association-list (HashMap) lemmas -/

theorem Table.keys_cons (e : Nat × Option Bytes) (t : Table) :
    Table.keys (e :: t) = e.1 :: t.keys := rfl

theorem Table.findVal_removeKey_of_ne (t : Table) {k k' : Nat} (hne : k' ≠ k) :
    (t.removeKey k).findVal k' = t.findVal k' := by
  induction t with
  | nil => rfl
  | cons e t ih =>
    simp only [Table.removeKey, Table.findVal]
    by_cases he : e.1 = k
    · rw [if_pos he, ih, if_neg (by omega)]
    · rw [if_neg he]
      simp only [Table.findVal]
      by_cases he' : e.1 = k' <;> simp [he', ih]

theorem Table.findVal_removeKey_self (t : Table) (k : Nat) :
    (t.removeKey k).findVal k = none := by
  induction t with
  | nil => rfl
  | cons e t ih =>
    simp only [Table.removeKey]
    by_cases he : e.1 = k <;> simp [he, ih, Table.findVal]

theorem Table.findVal_insert_self (t : Table) (k : Nat) (v : Option Bytes) :
    (t.insert k v).findVal k = some v := by
  simp [Table.insert, Table.findVal]

theorem Table.findVal_insert_of_ne (t : Table) {k k' : Nat} (hne : k' ≠ k) (v : Option Bytes) :
    (t.insert k v).findVal k' = t.findVal k' := by
  simp only [Table.insert, Table.findVal]
  rw [if_neg (Ne.symm hne), Table.findVal_removeKey_of_ne t hne]

theorem Table.mem_keys_removeKey (t : Table) (k x : Nat) (hx : x ∈ (t.removeKey k).keys) :
    x ∈ t.keys ∧ x ≠ k := by
  induction t with
  | nil => simp [Table.removeKey, Table.keys] at hx
  | cons e t ih =>
    simp only [Table.removeKey] at hx
    by_cases he : e.1 = k
    · rw [if_pos he] at hx
      rcases ih hx with ⟨h1, h2⟩
      exact ⟨by simp [Table.keys_cons, h1], h2⟩
    · rw [if_neg he] at hx
      rw [Table.keys_cons, List.mem_cons] at hx
      rcases hx with hx | hx
      · exact ⟨by simp [Table.keys_cons, hx], by omega⟩
      · rcases ih hx with ⟨h1, h2⟩
        exact ⟨by simp [Table.keys_cons, h1], h2⟩

theorem Table.nodup_keys_removeKey (t : Table) (k : Nat) (h : t.keys.Nodup) :
    (t.removeKey k).keys.Nodup := by
  induction t with
  | nil => simp [Table.removeKey, Table.keys]
  | cons e t ih =>
    rw [Table.keys_cons, List.nodup_cons] at h
    simp only [Table.removeKey]
    by_cases he : e.1 = k
    · rw [if_pos he]; exact ih h.2
    · rw [if_neg he, Table.keys_cons, List.nodup_cons]
      exact ⟨fun hm => h.1 (Table.mem_keys_removeKey t k e.1 hm).1, ih h.2⟩

theorem Table.nodup_keys_insert (t : Table) (k : Nat) (v : Option Bytes) (h : t.keys.Nodup) :
    (t.insert k v).keys.Nodup := by
  simp only [Table.insert, Table.keys_cons, List.nodup_cons]
  exact ⟨fun hm => (Table.mem_keys_removeKey t k k hm).2 rfl, Table.nodup_keys_removeKey t k h⟩

theorem Table.mem_keys_insert (t : Table) (k x : Nat) (v : Option Bytes)
    (hx : x ∈ (t.insert k v).keys) : x = k ∨ x ∈ t.keys := by
  simp only [Table.insert, Table.keys_cons, List.mem_cons] at hx
  rcases hx with hx | hx
  · exact Or.inl hx
  · exact Or.inr (Table.mem_keys_removeKey t k x hx).1

theorem Table.findVal_isSome_mem (t : Table) (k : Nat)
    (h : (t.findVal k).isSome) : k ∈ t.keys := by
  induction t with
  | nil => simp [Table.findVal] at h
  | cons e t ih =>
    simp only [Table.findVal] at h
    by_cases he : e.1 = k
    · subst he; rw [Table.keys_cons]; exact List.mem_cons_self _ _
    · rw [if_neg he] at h
      rw [Table.keys_cons]
      exact List.mem_cons_of_mem _ (ih h)

/-! ### Wire-format lemmas -/

theorem read_u32_length {s rest : Bytes} {v : Nat} (h : read_u32 s = some (v, rest)) :
    s.length = rest.length + 4 := by
  rcases s with _ | ⟨a, _ | ⟨b, _ | ⟨c, _ | ⟨d, r⟩⟩⟩⟩ <;>
    simp only [read_u32, Option.some.injEq, Prod.mk.injEq, reduceCtorEq] at h
  rcases h with ⟨-, h2⟩
  subst h2
  simp

theorem read_msg_eq {len : Nat} {s p rest : Bytes} (h : read_msg len s = some (p, rest)) :
    p = s.take len ∧ rest = s.drop len ∧ len ≤ s.length := by
  simp only [read_msg] at h
  split at h
  · simp only [Option.some.injEq, Prod.mk.injEq] at h
    exact ⟨h.1.symm, h.2.symm, by assumption⟩
  · simp at h

theorem read_frame_some {s : Bytes} {h : Nat} {p rest : Bytes}
    (hf : read_frame s = some (h, p, rest)) :
    ∃ len s1 s2, read_u32 s = some (len, s1) ∧ read_u32 s1 = some (h, s2) ∧
      p = s2.take len ∧ rest = s2.drop len ∧ len ≤ s2.length := by
  simp only [read_frame] at hf
  split at hf
  · simp at hf
  · rename_i len s1 h1
    split at hf
    · simp at hf
    · rename_i handle s2 h2
      split at hf
      · simp at hf
      · rename_i payload r h3
        simp only [Option.some.injEq, Prod.mk.injEq] at hf
        rcases hf with ⟨hh, hp, hr⟩
        rcases read_msg_eq h3 with ⟨hp', hr', hl⟩
        refine ⟨len, s1, s2, h1, ?_, ?_, ?_, hl⟩
        · rw [← hh]; exact h2
        · rw [← hp]; exact hp'
        · rw [← hr]; exact hr'

theorem read_frame_length {s : Bytes} {h : Nat} {p rest : Bytes}
    (hf : read_frame s = some (h, p, rest)) :
    rest.length + 8 ≤ s.length := by
  rcases read_frame_some hf with ⟨len, s1, s2, h1, h2, -, hr, hl⟩
  have l1 := read_u32_length h1
  have l2 := read_u32_length h2
  have l3 : rest.length = s2.length - len := by rw [hr]; simp
  omega

/-! ### Unfolding equations and fuel adequacy for the dispatch loop -/

theorem await_messagesF_succ_none {fuel : Nat} {msgs : Table} {input : Bytes}
    (hr : read_frame input = none) : await_messagesF (fuel + 1) msgs input = none := by
  simp only [await_messagesF, hr]

theorem await_messagesF_succ_store {fuel : Nat} {msgs t : Table} {input : Bytes}
    {handle : Nat} {payload rest : Bytes}
    (hr : read_frame input = some (handle, payload, rest))
    (hd : deliver msgs handle payload = (true, t)) :
    await_messagesF (fuel + 1) msgs input = some (t, rest, [Ev.store handle payload]) := by
  simp only [await_messagesF, hr, hd]

theorem await_messagesF_succ_cb {fuel : Nat} {msgs t : Table} {input : Bytes}
    {handle : Nat} {payload rest : Bytes}
    (hr : read_frame input = some (handle, payload, rest))
    (hd : deliver msgs handle payload = (false, t)) :
    await_messagesF (fuel + 1) msgs input =
      match await_messagesF fuel t rest with
      | none => none
      | some (t', rest', evs) => some (t', rest', Ev.cb handle payload :: evs) := by
  simp only [await_messagesF, hr, hd]

theorem await_messagesF_fuel (f : Nat) :
    ∀ (g : Nat) (msgs : Table) (input : Bytes), input.length < f → input.length < g →
    await_messagesF f msgs input = await_messagesF g msgs input := by
  induction f with
  | zero => intro g msgs input hf hg; omega
  | succ f ih =>
    intro g msgs input hf hg
    cases g with
    | zero => omega
    | succ g =>
      cases hr : read_frame input with
      | none => rw [await_messagesF_succ_none hr, await_messagesF_succ_none hr]
      | some x =>
        obtain ⟨handle, payload, rest⟩ := x
        have hlen := read_frame_length hr
        cases hd : deliver msgs handle payload with
        | mk ours t =>
          cases ours
          · rw [await_messagesF_succ_cb hr hd, await_messagesF_succ_cb hr hd,
              ih g t rest (by omega) (by omega)]
          · rw [await_messagesF_succ_store hr hd, await_messagesF_succ_store hr hd]

theorem callLoopF_succ_resolved {fuel : Nat} {msgs m1 m2 : Table} {handle : Nat}
    {input r1 : Bytes} {e1 : List Ev} {m : Bytes}
    (h1 : await_messages (register msgs handle) input = some (m1, r1, e1))
    (h2 : checkResolved m1 handle = some (some m, m2)) :
    callLoopF (fuel + 1) msgs handle input =
      some (m2, r1, (Ev.reg handle :: e1) ++ [Ev.rm handle], m) := by
  simp only [callLoopF, h1, h2]

theorem callLoopF_succ_loop {fuel : Nat} {msgs m1 m2 : Table} {handle : Nat}
    {input r1 : Bytes} {e1 : List Ev}
    (h1 : await_messages (register msgs handle) input = some (m1, r1, e1))
    (h2 : checkResolved m1 handle = some (none, m2)) :
    callLoopF (fuel + 1) msgs handle input =
      match callLoopF fuel m2 handle r1 with
      | none => none
      | some (t', rest', evs', raw) =>
        some (t', rest', (Ev.reg handle :: e1) ++ (Ev.rm handle :: evs'), raw) := by
  simp only [callLoopF, h1, h2]

theorem callLoopF_events {fuel : Nat} {msgs : Table} {handle : Nat} {input : Bytes}
    {t : Table} {rest : Bytes} {evs : List Ev} {raw : Bytes}
    (h : callLoopF fuel msgs handle input = some (t, rest, evs, raw)) :
    ∃ tail, evs = Ev.reg handle :: tail := by
  cases fuel with
  | zero => simp [callLoopF] at h
  | succ fuel =>
    simp only [callLoopF] at h
    split at h
    · simp at h
    · rename_i m1 r1 e1 h1
      split at h
      · simp at h
      · rename_i m2 h2
        split at h
        · simp at h
        · rename_i t' r' e' raw' h3
          simp only [Option.some.injEq, Prod.mk.injEq] at h
          exact ⟨e1 ++ (Ev.rm handle :: e'), by rw [← h.2.2.1]; simp⟩
      · rename_i m m2 h2
        simp only [Option.some.injEq, Prod.mk.injEq] at h
        exact ⟨e1 ++ [Ev.rm handle], by rw [← h.2.2.1]; simp⟩

/-! ### C2: a second delivery for an already-populated id -/

/-- **C2, counterexample.**  The claim states that a second delivery for a
registered id whose payload has already arrived (entry `Some`) is treated
as "not ours" (no-op) and the stored payload is never overwritten.  In the
code (lines 107-111) the test is key *presence* (`remove(..).is_some()`),
so on a table holding `id ↦ Some [1]` a second frame for that id is
accepted (`true`, not "not ours") and the stored payload becomes `[2]`. -/
theorem c2_second_delivery_counterexample :
    deliver [(2147483649, some [1])] 2147483649 [2] = (true, [(2147483649, some [2])]) ∧
    (deliver [(2147483649, some [1])] 2147483649 [2]).1 ≠ false ∧
    Table.findVal (deliver [(2147483649, some [1])] 2147483649 [2]).2 2147483649 ≠
      some (some [1]) :=
  ⟨rfl, by decide, by decide⟩

/-- **C2, amended.**  A delivery for an id *present* in the pending table —
even one whose payload has already been delivered (`Some`) — is accepted
and overwrites the entry with the new payload; only an id absent from the
table is treated as "not ours". -/
theorem c2_second_delivery_overwrites (t : Table) (h : Nat) (p0 p : Bytes)
    (hp : t.findVal h = some (some p0)) :
    deliver t h p = (true, (t.removeKey h).insert h (some p)) ∧
    (deliver t h p).2.findVal h = some (some p) := by
  have hs : (t.findVal h).isSome = true := by rw [hp]; rfl
  refine ⟨by simp [deliver, hs], ?_⟩
  simp [deliver, hs, Table.findVal_insert_self]

/-- **C2, witness**: the amended theorem at a concrete populated table. -/
theorem c2_second_delivery_overwrites_witness :
    deliver [(2147483649, some [1])] 2147483649 [3] = (true, [(2147483649, some [3])]) ∧
    Table.findVal (deliver [(2147483649, some [1])] 2147483649 [3]).2 2147483649 =
      some (some [3]) := by
  have h := c2_second_delivery_overwrites [(2147483649, some [1])] 2147483649 [1] [3] rfl
  exact ⟨by rw [h.1]; rfl, h.2⟩

/-! ### C4: correlation correctness -/

/-- **C4** (confirmed): with two distinct ids `A ≠ B` both registered
(`None`), delivering a frame carrying `B` stores the payload under `B`
only: `A`'s entry stays `None`, the resolve check (lines 87-89) for `A`
yields `None` (so the `call` waiting on `A` keeps looping), and the check
for `B` yields the payload (so only `B`'s caller breaks out). -/
theorem c4_correlation_correctness (t : Table) (A B : Nat) (p : Bytes)
    (hAB : A ≠ B) (hA : t.findVal A = some none) (hB : t.findVal B = some none) :
    (deliver t B p).1 = true ∧
    (deliver t B p).2.findVal B = some (some p) ∧
    (deliver t B p).2.findVal A = some none ∧
    checkResolved (deliver t B p).2 A =
      some (none, ((deliver t B p).2.removeKey A)) ∧
    checkResolved (deliver t B p).2 B =
      some (some p, ((deliver t B p).2.removeKey B)) := by
  have hs : (t.findVal B).isSome = true := by rw [hB]; rfl
  have h2 : (deliver t B p).2 = (t.removeKey B).insert B (some p) := by simp [deliver, hs]
  have hfB : (deliver t B p).2.findVal B = some (some p) := by
    rw [h2, Table.findVal_insert_self]
  have hfA : (deliver t B p).2.findVal A = some none := by
    rw [h2, Table.findVal_insert_of_ne _ hAB, Table.findVal_removeKey_of_ne _ hAB, hA]
  refine ⟨by simp [deliver, hs], hfB, hfA, ?_, ?_⟩
  · simp only [checkResolved, Table.remove, hfA]
  · simp only [checkResolved, Table.remove, hfB]

/-- **C4, witness**: the theorem at a concrete two-entry table. -/
theorem c4_correlation_correctness_witness :
    (deliver [(2147483649, none), (2147483650, none)] 2147483650 [9]).1 = true ∧
    (deliver [(2147483649, none), (2147483650, none)] 2147483650 [9]).2.findVal 2147483650 =
      some (some [9]) ∧
    (deliver [(2147483649, none), (2147483650, none)] 2147483650 [9]).2.findVal 2147483649 =
      some none ∧
    checkResolved (deliver [(2147483649, none), (2147483650, none)] 2147483650 [9]).2 2147483649 =
      some (none,
        ((deliver [(2147483649, none), (2147483650, none)] 2147483650 [9]).2.removeKey 2147483649)) ∧
    checkResolved (deliver [(2147483649, none), (2147483650, none)] 2147483650 [9]).2 2147483650 =
      some (some [9],
        ((deliver [(2147483649, none), (2147483650, none)] 2147483650 [9]).2.removeKey 2147483650)) :=
  c4_correlation_correctness [(2147483649, none), (2147483650, none)] 2147483649 2147483650 [9]
    (by decide) rfl rfl

/-! ### C5: registration of an already-present id -/

/-- **C5, counterexample.**  The claim states that registering an id
already present in the table raises a logic error instead of silently
overwriting.  `register` (line 84) is a plain `HashMap::insert` and is
total — on a table holding `id ↦ Some [7]` it silently replaces the entry
with `None`, and no error path exists. -/
theorem c5_register_counterexample :
    register [(2147483649, some [7])] 2147483649 = [(2147483649, none)] ∧
    Table.findVal (register [(2147483649, some [7])] 2147483649) 2147483649 ≠
      some (some [7]) :=
  ⟨rfl, by decide⟩

/-- **C5, amended.**  `register` inserts `id → None` unconditionally; when
the id is already present the existing entry is silently overwritten with
`None` — registration never fails. -/
theorem c5_register_overwrites (t : Table) (h : Nat) (v : Option Bytes)
    (_hp : t.findVal h = some v) :
    register t h = t.insert h none ∧ (register t h).findVal h = some none :=
  ⟨rfl, Table.findVal_insert_self t h none⟩

/-- **C5, witness**: the amended theorem at a concrete populated table. -/
theorem c5_register_overwrites_witness :
    register [(2147483650, some [5])] 2147483650 =
      Table.insert [(2147483650, some [5])] 2147483650 none ∧
    Table.findVal (register [(2147483650, some [5])] 2147483650) 2147483650 = some none :=
  c5_register_overwrites [(2147483650, some [5])] 2147483650 (some [5]) rfl

/-! ### C10: callback handling ignores the correlation id -/

/-- **C10** (confirmed): callback handling is independent of the frame's
correlation id.  The `_handle` parameter of `handle_callback` (line 117)
is never read, so for every notification payload and any two ids the
behavior is literally identical. -/
theorem c10_callback_ignores_handle (codec : Codec) (msg : Bytes) (h1 h2 : Nat) :
    handle_callback codec msg h1 = handle_callback codec msg h2 := rfl

/-! ### C1: the dispatch primitive loops until a frame matches -/

/-- **C1, counterexample.**  The claim states that `await_messages` reads
exactly one frame and, after handing an unmatched frame to the callback
handler, returns.  On a stream holding an unmatched notification frame
(id `5`, payload `[110]`) followed by a response frame for the registered
id `0x8000_0001`, the `loop` (lines 102-114) consumes *both* frames before
returning: the remaining stream is empty (not the 9-byte second frame) and
the second frame's payload has been stored. -/
theorem c1_pump_counterexample :
    await_messages [(2147483649, none)]
        [1, 0, 0, 0, 5, 0, 0, 0, 110, 1, 0, 0, 0, 1, 0, 0, 128, 114] =
      some ([(2147483649, some [114])], [],
        [Ev.cb 5 [110], Ev.store 2147483649 [114]]) ∧
    read_frame [1, 0, 0, 0, 5, 0, 0, 0, 110, 1, 0, 0, 0, 1, 0, 0, 128, 114] =
      some (5, [110], [1, 0, 0, 0, 1, 0, 0, 128, 114]) ∧
    ([1, 0, 0, 0, 1, 0, 0, 128, 114] : Bytes) ≠ [] :=
  ⟨rfl, rfl, by decide⟩

/-- **C1, amended.**  Each iteration of `await_messages` reads one frame.
A frame whose correlation id is a key of the pending table has its payload
stored and the function returns without reading further; an unmatched
frame is handed to the callback handler and the loop *continues reading
the next frame* — the function returns only once some frame matches (or
the stream ends, the fatal short read). -/
theorem c1_pump_loops_until_match (msgs : Table) (input : Bytes) (handle : Nat)
    (payload rest : Bytes) (hr : read_frame input = some (handle, payload, rest)) :
    ((msgs.findVal handle).isSome = true →
      await_messages msgs input =
        some ((msgs.removeKey handle).insert handle (some payload), rest,
          [Ev.store handle payload])) ∧
    ((msgs.findVal handle).isSome = false →
      await_messages msgs input =
        (await_messages msgs rest).map
          (fun x => (x.1, x.2.1, Ev.cb handle payload :: x.2.2))) := by
  have hlen := read_frame_length hr
  constructor
  · intro hs
    have hd : deliver msgs handle payload =
        (true, (msgs.removeKey handle).insert handle (some payload)) := by
      simp [deliver, hs]
    exact await_messagesF_succ_store hr hd
  · intro hs
    have hd : deliver msgs handle payload = (false, msgs) := by simp [deliver, hs]
    rw [await_messages, await_messagesF_succ_cb hr hd]
    rw [show await_messagesF input.length msgs rest = await_messages msgs rest from
      await_messagesF_fuel input.length (rest.length + 1) msgs rest (by omega) (by omega)]
    cases await_messages msgs rest with
    | none => rfl
    | some x => obtain ⟨a, b, c⟩ := x; rfl

/-- **C1, witness**: both branches of the amended theorem at concrete
inputs — a matching single-frame stream (stored, nothing further read),
and an unmatched frame against an empty table (callback recorded, loop
pumps the rest of the stream). -/
theorem c1_pump_loops_until_match_witness :
    await_messages [(2147483649, none)] [1, 0, 0, 0, 1, 0, 0, 128, 84] =
      some ([(2147483649, some [84])], [], [Ev.store 2147483649 [84]]) ∧
    await_messages [] [1, 0, 0, 0, 5, 0, 0, 0, 110] =
      (await_messages ([] : Table) []).map
        (fun x => (x.1, x.2.1, Ev.cb 5 [110] :: x.2.2)) := by
  constructor
  · have h := (c1_pump_loops_until_match [(2147483649, none)]
      [1, 0, 0, 0, 1, 0, 0, 128, 84] 2147483649 [84] [] rfl).1 rfl
    rw [h]; rfl
  · exact (c1_pump_loops_until_match [] [1, 0, 0, 0, 5, 0, 0, 0, 110] 5 [110] [] rfl).2 rfl

/-! ### C6: the handle allocator -/

theorem iterHandle_succ (k : Nat) : iterHandle (k + 1) = new_handle (iterHandle k) := rfl

/-- Closed form of the allocator counter before the first wrap. -/
theorem iterHandle_eq (k : Nat) (hk : k ≤ 0x7ffffeff) :
    iterHandle k = 0x80000000 + k := by
  induction k with
  | zero => rfl
  | succ k ih =>
    have ih' := ih (by omega)
    simp only [iterHandle, ih', new_handle]
    have h1 : 2147483648 + k + 1 < 4294967296 := by omega
    rw [Nat.mod_eq_of_lt (by omega), if_neg (by omega)]
    omega

/-- **C6** (confirmed): the allocator counter starts at `0x8000_0000`
(line 28); each call increments by one and returns the new value, except
that a value reaching `0xffff_ff00` is reset to `0x8000_0000` before being
returned (lines 58-64).  Before the wrap the returned sequence is strictly
increasing inside `[0x8000_0001, 0xffff_ff00)` with no duplicates, and the
call after the boundary — call number `0x7fff_ff00` — returns the single
wrap value `0x8000_0000`. -/
theorem c6_handle_allocator :
    (∀ k : Nat, k ≤ 0x7ffffeff → iterHandle k = 0x80000000 + k) ∧
    (∀ j k : Nat, 1 ≤ j → j < k → k ≤ 0x7ffffeff → iterHandle j < iterHandle k) ∧
    (∀ k : Nat, 1 ≤ k → k ≤ 0x7ffffeff →
      0x80000001 ≤ iterHandle k ∧ iterHandle k < 0xffffff00) ∧
    iterHandle 0x7fffff00 = 0x80000000 := by
  refine ⟨iterHandle_eq, ?_, ?_, ?_⟩
  · intro j k h1 h2 h3
    rw [iterHandle_eq j (by omega), iterHandle_eq k h3]
    omega
  · intro k h1 h2
    rw [iterHandle_eq k h2]
    omega
  · rw [show (0x7fffff00 : Nat) = 0x7ffffeff + 1 from by norm_num,
      iterHandle_succ, iterHandle_eq 0x7ffffeff (by omega)]
    rfl

/-- **C6, witness**: the allocator theorem at the first two calls and at
the wrap point. -/
theorem c6_handle_allocator_witness :
    (1 : Nat) ≤ 1 ∧ (1 : Nat) < 2 ∧ (2 : Nat) ≤ 0x7ffffeff ∧
    iterHandle 1 < iterHandle 2 ∧
    (0x80000001 ≤ iterHandle 1 ∧ iterHandle 1 < 0xffffff00) ∧
    iterHandle 0x7fffff00 = 0x80000000 :=
  ⟨by norm_num, by norm_num, by norm_num,
    c6_handle_allocator.2.1 1 2 (by norm_num) (by norm_num) (by norm_num),
    c6_handle_allocator.2.2.1 1 (by norm_num) (by norm_num),
    c6_handle_allocator.2.2.2⟩

/-! ### Inversion of `call` -/

theorem call_some {R : Type} {codec : Codec} {tryFrom : Value → Option R} {c : Client}
    {f : String} {params : List Value} {input : Bytes}
    {c' : Client} {rest : Bytes} {evs : List Ev} {raw : Bytes} {res : Except Fault R}
    (h : call codec tryFrom c f params input = some (c', rest, evs, raw, res)) :
    ∃ t loopEvs,
      callLoop c.msgs (new_handle c.handle) input = some (t, rest, loopEvs, raw) ∧
      decodeCallResult codec tryFrom raw = some res ∧
      c' = ⟨new_handle c.handle, t⟩ ∧
      evs = Ev.wr (write_u32 (codec.serializeCall f params).length) ::
        Ev.wr (write_u32 (new_handle c.handle)) ::
        Ev.wr (codec.serializeCall f params) :: loopEvs := by
  simp only [call] at h
  split at h
  · simp at h
  · rename_i t rest0 evs0 raw0 h1
    split at h
    · simp at h
    · rename_i res0 h2
      simp only [Option.some.injEq, Prod.mk.injEq] at h
      obtain ⟨hc, hrest, hevs, hraw, hres⟩ := h
      rw [hrest, hraw] at h1
      rw [hraw, hres] at h2
      exact ⟨t, evs0, h1, h2, hc.symm, hevs.symm⟩

theorem callLoop_events {msgs : Table} {handle : Nat} {input : Bytes}
    {t : Table} {rest : Bytes} {evs : List Ev} {raw : Bytes}
    (h : callLoop msgs handle input = some (t, rest, evs, raw)) :
    ∃ tail, evs = Ev.reg handle :: tail :=
  callLoopF_events h

/-! ### C7: fault responses decode first and surface as the call's error -/

/-- **C7** (confirmed): the resolved payload of a `call` is decoded in
fixed priority order, fault response first (lines 92-95): whenever the
payload decodes as a fault response that converts to a `Fault`, the call
returns that structured fault (code + message) as its one `Err` result —
not a decode panic, and the session value is returned normally. -/
theorem c7_fault_priority {R : Type} (codec : Codec) (tryFrom : Value → Option R)
    (c : Client) (f : String) (params : List Value) (input : Bytes)
    (c' : Client) (rest : Bytes) (evs : List Ev) (raw : Bytes) (res : Except Fault R)
    (fr : FaultResponse) (fault : Fault)
    (hc : call codec tryFrom c f params input = some (c', rest, evs, raw, res))
    (h1 : codec.deserFaultResp raw = some fr)
    (h2 : codec.faultOfResponse fr = some fault) :
    res = Except.error fault := by
  obtain ⟨t, loopEvs, -, hdec, -, -⟩ := call_some hc
  simp only [decodeCallResult, h1, h2, Option.map_some', Option.some.injEq] at hdec
  exact hdec.symm

/-- **C7, witness**: a concrete call answered by a fault-shaped frame for
its own handle returns the structured fault (code `42`, message `"boom"`),
not a decode failure. -/
theorem c7_fault_priority_witness :
    call demoCodec tryFromBool ⟨2147483648, []⟩ "system.Test" []
        [1, 0, 0, 0, 1, 0, 0, 128, 70] =
      some (⟨2147483649, []⟩, [],
        [Ev.wr [1, 0, 0, 0], Ev.wr [1, 0, 0, 128], Ev.wr [60],
          Ev.reg 2147483649, Ev.store 2147483649 [70], Ev.rm 2147483649],
        [70], Except.error ⟨42, "boom"⟩) ∧
    (Except.error ⟨42, "boom"⟩ : Except Fault Bool) = Except.error ⟨42, "boom"⟩ := by
  refine ⟨rfl, ?_⟩
  exact c7_fault_priority demoCodec tryFromBool ⟨2147483648, []⟩ "system.Test" []
    [1, 0, 0, 0, 1, 0, 0, 128, 70] ⟨2147483649, []⟩ []
    [Ev.wr [1, 0, 0, 0], Ev.wr [1, 0, 0, 128], Ev.wr [60],
      Ev.reg 2147483649, Ev.store 2147483649 [70], Ev.rm 2147483649]
    [70] (Except.error ⟨42, "boom"⟩) ⟨42, "boom"⟩ ⟨42, "boom"⟩ rfl rfl rfl

/-! ### C3: registration happens after the frame is written -/

/-- **C3, counterexample.**  The claim states the pending-table entry is
inserted before the outbound frame bytes are written.  In `call`
(lines 78-84) the three writes — length, handle, payload — all happen
*before* the first `msgs.insert(handle, None)`: in the concrete trace the
registration event sits at index 3, after the writes at indices 0-2,
so the claimed ordering is false. -/
theorem c3_register_order_counterexample :
    call demoCodec tryFromBool ⟨2147483648, []⟩ "system.Test2" []
        [1, 0, 0, 0, 1, 0, 0, 128, 84] =
      some (⟨2147483649, []⟩, [],
        [Ev.wr [1, 0, 0, 0], Ev.wr [1, 0, 0, 128], Ev.wr [60],
          Ev.reg 2147483649, Ev.store 2147483649 [84], Ev.rm 2147483649],
        [84], Except.ok true) ∧
    ¬ registersBeforeWriting
        [Ev.wr [1, 0, 0, 0], Ev.wr [1, 0, 0, 128], Ev.wr [60],
          Ev.reg 2147483649, Ev.store 2147483649 [84], Ev.rm 2147483649] := by
  refine ⟨rfl, fun hcl => ?_⟩
  have := hcl 3 0 2147483649 [1, 0, 0, 0] rfl rfl
  omega

/-- **C3, amended.**  In every successful `call`, the pending-table entry
for the freshly allocated handle is registered immediately *after* the
outbound frame's three writes (length, handle, payload) and *before* any
frame is read or handled: the event trace is exactly the three writes,
then the registration, then the dispatch-loop events.  Since the client
only reads inside `await_messages`, the bookkeeping still exists before
any response can be processed. -/
theorem c3_register_after_write_before_read {R : Type} (codec : Codec)
    (tryFrom : Value → Option R) (c : Client) (f : String) (params : List Value)
    (input : Bytes) (c' : Client) (rest : Bytes) (evs : List Ev) (raw : Bytes)
    (res : Except Fault R)
    (h : call codec tryFrom c f params input = some (c', rest, evs, raw, res)) :
    ∃ tail,
      evs = Ev.wr (write_u32 (codec.serializeCall f params).length) ::
        Ev.wr (write_u32 (new_handle c.handle)) ::
        Ev.wr (codec.serializeCall f params) ::
        Ev.reg (new_handle c.handle) :: tail := by
  obtain ⟨t, loopEvs, hloop, -, -, hevs⟩ := call_some h
  obtain ⟨tail, htail⟩ := callLoop_events hloop
  exact ⟨tail, by rw [hevs, htail]⟩

/-- **C3, witness**: the amended ordering at a concrete call. -/
theorem c3_register_after_write_before_read_witness :
    ([Ev.wr [1, 0, 0, 0], Ev.wr [1, 0, 0, 128], Ev.wr [60],
      Ev.reg 2147483649, Ev.store 2147483649 [84], Ev.rm 2147483649].take 4) =
      [Ev.wr (write_u32 (demoCodec.serializeCall "system.Test2" []).length),
       Ev.wr (write_u32 (new_handle 2147483648)),
       Ev.wr (demoCodec.serializeCall "system.Test2" []),
       Ev.reg (new_handle 2147483648)] := by
  obtain ⟨tail, htail⟩ := c3_register_after_write_before_read demoCodec tryFromBool
    ⟨2147483648, []⟩ "system.Test2" [] [1, 0, 0, 0, 1, 0, 0, 128, 84] ⟨2147483649, []⟩ []
    [Ev.wr [1, 0, 0, 0], Ev.wr [1, 0, 0, 128], Ev.wr [60],
      Ev.reg 2147483649, Ev.store 2147483649 [84], Ev.rm 2147483649]
    [84] (Except.ok true) rfl
  rw [htail]
  rfl

/-! ### C9: the pending-table key invariant -/

theorem new_handle_lt (h : Nat) : new_handle h < 4294967296 := by
  simp only [new_handle]
  split
  · norm_num
  · exact Nat.mod_lt _ (by norm_num)

theorem new_handle_range {h : Nat} (h1 : 0x80000000 ≤ h) (h2 : h ≤ 0xfffffeff) :
    0x80000000 ≤ new_handle h ∧ new_handle h ≤ 0xfffffeff := by
  simp only [new_handle]
  rw [Nat.mod_eq_of_lt (by omega)]
  by_cases hc : 4294967040 ≤ h + 1
  · rw [if_pos hc]; omega
  · rw [if_neg hc]; omega

theorem sessionInv_step {s s' : Session} (hs : sessionInv s) (st : SessionStep s s') :
    sessionInv s' := by
  obtain ⟨hc1, hc2, hheld, hkeys, hnd⟩ := hs
  cases st with
  | alloc =>
    obtain ⟨g1, g2⟩ := new_handle_range hc1 hc2
    refine ⟨g1, g2, ?_, hkeys, hnd⟩
    intro h hh
    rcases List.mem_cons.mp hh with rfl | hh
    · exact ⟨g1, by omega⟩
    · exact hheld h hh
  | registerStep h hh =>
    refine ⟨hc1, hc2, hheld, ?_, Table.nodup_keys_insert _ _ _ hnd⟩
    intro k hk
    rcases Table.mem_keys_insert _ _ _ _ hk with rfl | hk
    · exact hheld k hh
    · exact hkeys k hk
  | deliverStep h p =>
    by_cases hd : (Table.findVal s.msgs h).isSome
    · have hrw : (deliver s.msgs h p).2 = (s.msgs.removeKey h).insert h (some p) := by
        simp [deliver, hd]
      refine ⟨hc1, hc2, hheld, ?_, ?_⟩
      · intro k hk
        rw [hrw] at hk
        rcases Table.mem_keys_insert _ _ _ _ hk with rfl | hk
        · exact hkeys k (Table.findVal_isSome_mem _ _ hd)
        · exact hkeys k (Table.mem_keys_removeKey _ _ _ hk).1
      · rw [hrw]
        exact Table.nodup_keys_insert _ _ _ (Table.nodup_keys_removeKey _ _ hnd)
    · have hrw : (deliver s.msgs h p).2 = s.msgs := by simp [deliver, hd]
      rw [hrw]
      exact ⟨hc1, hc2, hheld, hkeys, hnd⟩
  | resolveStep h =>
    refine ⟨hc1, hc2, hheld, ?_, Table.nodup_keys_removeKey _ _ hnd⟩
    intro k hk
    exact hkeys k (Table.mem_keys_removeKey _ _ _ hk).1

theorem sessionInv_reachable {s : Session} (h : Reachable s) : sessionInv s := by
  induction h with
  | init =>
    exact ⟨by norm_num, by norm_num, by simp, by simp [Table.keys], by simp [Table.keys]⟩
  | step hr hst ih => exact sessionInv_step ih hst

/-- **C9** (confirmed): at every reachable session state, the set of
correlation ids present in the pending table is a subset of the reserved
range `[0x8000_0000, 0xffff_ff00)` and contains no duplicates; every
operation of the client (handle allocation, registration, delivery,
resolution) preserves this. -/
theorem c9_table_invariant (s : Session) (h : Reachable s) :
    (∀ k ∈ s.msgs.keys, inReservedRange k) ∧ s.msgs.keys.Nodup :=
  ⟨(sessionInv_reachable h).2.2.2.1, (sessionInv_reachable h).2.2.2.2⟩

/-- **C9, witness**: the invariant at the reachable state obtained by
allocating the first handle and registering it. -/
theorem c9_table_invariant_witness :
    (∀ k ∈ Table.keys [(2147483649, (none : Option Bytes))], inReservedRange k) ∧
    (Table.keys [(2147483649, (none : Option Bytes))]).Nodup := by
  have hreach : Reachable ⟨2147483649, [2147483649], [(2147483649, none)]⟩ :=
    Reachable.step (Reachable.step Reachable.init (SessionStep.alloc _))
      (SessionStep.registerStep _ 2147483649 (by decide))
  exact c9_table_invariant _ hreach

/-! ### C8: session bootstrap -/

theorem read_u32_write_u32 (n : Nat) (s : Bytes) :
    read_u32 (write_u32 n ++ s) = some (n % 4294967296, s) := by
  simp only [write_u32, List.cons_append, List.nil_append, read_u32, Option.some.injEq,
    Prod.mk.injEq, and_true]
  omega

theorem read_msg_exact (p s : Bytes) : read_msg p.length (p ++ s) = some (p, s) := by
  simp [read_msg, List.take_left, List.drop_left]

theorem read_frame_mkFrame (h : Nat) (p s : Bytes)
    (hh : h < 4294967296) (hp : p.length < 4294967296) :
    read_frame (mkFrame h p ++ s) = some (h, p, s) := by
  simp only [mkFrame, List.append_assoc, read_frame, read_u32_write_u32,
    Nat.mod_eq_of_lt hp, Nat.mod_eq_of_lt hh, read_msg_exact]

/-- One `call` against a stream that answers immediately with a method
response for the freshly allocated handle: the call resolves in a single
pump, leaves the table empty, and returns the decoded value. -/
theorem call_one_frame {R : Type} (codec : Codec) (tryFrom : Value → Option R)
    (x H : Nat) (f : String) (params : List Value) (p rest : Bytes)
    (mr : MethodResponse) (r : R)
    (hH : new_handle x = H) (hp : p.length < 4294967296)
    (hfault : codec.deserFaultResp p = none)
    (hresp : codec.deserMethodResp p = some mr) (hval : tryFrom mr.inner = some r) :
    call codec tryFrom ⟨x, []⟩ f params (mkFrame H p ++ rest) =
      some (⟨H, []⟩, rest,
        [Ev.wr (write_u32 (codec.serializeCall f params).length),
         Ev.wr (write_u32 H), Ev.wr (codec.serializeCall f params),
         Ev.reg H, Ev.store H p, Ev.rm H],
        p, Except.ok r) := by
  subst hH
  have hlt : new_handle x < 4294967296 := new_handle_lt x
  have hread : read_frame (mkFrame (new_handle x) p ++ rest) =
      some (new_handle x, p, rest) := read_frame_mkFrame _ _ _ hlt hp
  have hdel : deliver (register ([] : Table) (new_handle x)) (new_handle x) p =
      (true, [(new_handle x, some p)]) := by
    simp [deliver, register, Table.insert, Table.removeKey, Table.findVal]
  have hawait : await_messages (register ([] : Table) (new_handle x))
        (mkFrame (new_handle x) p ++ rest) =
      some ([(new_handle x, some p)], rest, [Ev.store (new_handle x) p]) :=
    await_messagesF_succ_store hread hdel
  have hcheck : checkResolved [(new_handle x, some p)] (new_handle x) =
      some (some p, []) := by
    simp [checkResolved, Table.remove, Table.findVal, Table.removeKey]
  have hloop : callLoop ([] : Table) (new_handle x) (mkFrame (new_handle x) p ++ rest) =
      some ([], rest,
        [Ev.reg (new_handle x), Ev.store (new_handle x) p, Ev.rm (new_handle x)], p) := by
    simp only [callLoop]
    rw [callLoopF_succ_resolved hawait hcheck]
    rfl
  have hdec : decodeCallResult codec tryFrom p = some (Except.ok r) := by
    simp [decodeCallResult, hfault, hresp, hval]
  simp only [call, hloop, hdec]

/-- **C8** (confirmed): `Client::new` reads the greeting as a bare length
prefix followed by that many bytes (no correlation id), asserts it equals
the banner `"GBXRemote 2"` exactly, then issues the version-negotiation
(`SetApiVersion`), authentication (`Authenticate`) and enable-notifications
(`EnableCallbacks`) calls in that strict order, requiring a `true` result
from each.  Part 1: a matching greeting followed by three scripted `true`
responses (on the three consecutively allocated handles) completes the
bootstrap without error.  Part 2: a greeting of the declared length that
differs from the banner aborts startup.  Part 3: a `false` result for the
first call aborts startup. -/
theorem c8_bootstrap :
    (∀ (codec : Codec) (p1 p2 p3 rest : Bytes),
      p1.length < 4294967296 → p2.length < 4294967296 → p3.length < 4294967296 →
      codec.deserFaultResp p1 = none →
      codec.deserMethodResp p1 = some ⟨Value.bool true⟩ →
      codec.deserFaultResp p2 = none →
      codec.deserMethodResp p2 = some ⟨Value.bool true⟩ →
      codec.deserFaultResp p3 = none →
      codec.deserMethodResp p3 = some ⟨Value.bool true⟩ →
      (Client.new codec (write_u32 11 ++ bannerBytes ++ mkFrame 2147483649 p1 ++
          mkFrame 2147483650 p2 ++ mkFrame 2147483651 p3 ++ rest)).map
        (fun x => (x.1, x.2.1)) = some (⟨2147483651, []⟩, rest)) ∧
    (∀ (codec : Codec) (g rest : Bytes), g.length = 11 → g ≠ bannerBytes →
      Client.new codec (write_u32 11 ++ g ++ rest) = none) ∧
    (∀ (codec : Codec) (p1 rest : Bytes),
      p1.length < 4294967296 →
      codec.deserFaultResp p1 = none →
      codec.deserMethodResp p1 = some ⟨Value.bool false⟩ →
      Client.new codec (write_u32 11 ++ bannerBytes ++ mkFrame 2147483649 p1 ++ rest) = none) := by
  refine ⟨?_, ?_, ?_⟩
  · intro codec p1 p2 p3 rest hl1 hl2 hl3 hf1 hr1 hf2 hr2 hf3 hr3
    have e1 := call_one_frame codec tryFromBool 2147483648 2147483649 "SetApiVersion"
      [Value.str "2023-04-24"] p1 (mkFrame 2147483650 p2 ++ (mkFrame 2147483651 p3 ++ rest))
      ⟨Value.bool true⟩ true (by decide) hl1 hf1 hr1 rfl
    have e2 := call_one_frame codec tryFromBool 2147483649 2147483650 "Authenticate"
      [Value.str "SuperAdmin", Value.str "SuperAdmin"] p2 (mkFrame 2147483651 p3 ++ rest)
      ⟨Value.bool true⟩ true (by decide) hl2 hf2 hr2 rfl
    have e3 := call_one_frame codec tryFromBool 2147483650 2147483651 "EnableCallbacks"
      [Value.bool true] p3 rest ⟨Value.bool true⟩ true (by decide) hl3 hf3 hr3 rfl
    simp only [Client.new]
    rw [show write_u32 11 ++ bannerBytes ++ mkFrame 2147483649 p1 ++ mkFrame 2147483650 p2 ++
        mkFrame 2147483651 p3 ++ rest =
      write_u32 11 ++ (bannerBytes ++ (mkFrame 2147483649 p1 ++ (mkFrame 2147483650 p2 ++
        (mkFrame 2147483651 p3 ++ rest)))) from by simp [List.append_assoc]]
    simp only [read_u32_write_u32, Nat.reduceMod,
      show read_msg 11 (bannerBytes ++ (mkFrame 2147483649 p1 ++ (mkFrame 2147483650 p2 ++
        (mkFrame 2147483651 p3 ++ rest)))) =
        some (bannerBytes, mkFrame 2147483649 p1 ++ (mkFrame 2147483650 p2 ++
          (mkFrame 2147483651 p3 ++ rest))) from read_msg_exact bannerBytes _,
      eq_self_iff_true, ite_true, e1, e2, e3, Option.map_some']
  · intro codec g rest hlen hne
    simp only [Client.new, List.append_assoc, read_u32_write_u32, Nat.reduceMod]
    rw [show read_msg 11 (g ++ rest) = some (g, rest) from by
      rw [← hlen]; exact read_msg_exact g rest]
    simp [hne]
  · intro codec p1 rest hl1 hf1 hr1
    have e1 := call_one_frame codec tryFromBool 2147483648 2147483649 "SetApiVersion"
      [Value.str "2023-04-24"] p1 rest ⟨Value.bool false⟩ false (by decide) hl1 hf1 hr1 rfl
    simp only [Client.new, List.append_assoc, read_u32_write_u32, Nat.reduceMod,
      show read_msg 11 (bannerBytes ++ (mkFrame 2147483649 p1 ++ rest)) =
        some (bannerBytes, mkFrame 2147483649 p1 ++ rest) from read_msg_exact bannerBytes _,
      e1, eq_self_iff_true, ite_true]

/-- **C8, witness**: the bootstrap theorem at concrete scripted streams —
a successful `true`/`true`/`true` handshake, a wrong greeting
(`"GBXRemote 3"`), and a `false` first response. -/
theorem c8_bootstrap_witness :
    (Client.new demoCodec (write_u32 11 ++ bannerBytes ++ mkFrame 2147483649 [84] ++
        mkFrame 2147483650 [84] ++ mkFrame 2147483651 [84] ++ [])).map
      (fun x => (x.1, x.2.1)) = some (⟨2147483651, []⟩, []) ∧
    Client.new demoCodec
      (write_u32 11 ++ [71, 66, 88, 82, 101, 109, 111, 116, 101, 32, 51] ++ []) = none ∧
    Client.new demoCodec (write_u32 11 ++ bannerBytes ++ mkFrame 2147483649 [78] ++ []) = none :=
  ⟨c8_bootstrap.1 demoCodec [84] [84] [84] [] (by decide) (by decide) (by decide)
      rfl rfl rfl rfl rfl rfl,
   c8_bootstrap.2.1 demoCodec [71, 66, 88, 82, 101, 109, 111, 116, 101, 32, 51] [] rfl
      (by decide),
   c8_bootstrap.2.2 demoCodec [78] [] (by decide) rfl rfl⟩

end TrackmaniaController
